import Mathlib

/-!
Shallow embedding of the trust_score repository
(`trust_score.py`, `worker_debug.py`, `db_upsert.py`) in Lean 4.

Conventions of the embedding:
* Python floats are modelled as rationals; `round(x, 2)` is modelled by
  `round2`, rounding half to even as Python does (on the values reachable
  in this code the halfway case never occurs, so the tie rule is inert).
* Python `datetime` values are modelled as UTC timestamps in whole
  seconds (`Int`); `timedelta.days` is floor division of the difference
  by 86400, and Python integer `//` is `Int.fdiv` (floor division).
* A Python function that can raise is embedded as `Except String`.
* The SQLite tables touched by the worker are modelled as Lean lists of
  typed rows; one committed transaction is one state-to-state function.
-/

namespace TrustScore

/-- Round a rational to the nearest integer, ties to even
(the rounding used by Python `round`).  Uses the executable
`Rat.floor` so that concrete instances evaluate in the kernel. -/
def rhe (q : ℚ) : ℤ :=
  if q - q.floor < 1 / 2 then q.floor
  else if 1 / 2 < q - q.floor then q.floor + 1
  else if q.floor % 2 = 0 then q.floor else q.floor + 1

/-- Python `round(x, 2)`: round to two decimal places. -/
def round2 (q : ℚ) : ℚ := (rhe (100 * q) : ℚ) / 100

theorem ratFloor_eq_floor (q : ℚ) : q.floor = ⌊q⌋ :=
  (Rat.floor_def' q).trans Rat.floor_def.symm

theorem floor_le_rhe (q : ℚ) : q.floor ≤ rhe q := by
  unfold rhe
  split_ifs <;> omega

theorem le_rhe {n : ℤ} {q : ℚ} (h : (n : ℚ) ≤ q) : n ≤ rhe q :=
  le_trans (Rat.le_floor.mpr h) (floor_le_rhe q)

theorem rhe_le {n : ℤ} {q : ℚ} (h : q ≤ (n : ℚ)) : rhe q ≤ n := by
  have hfl : q.floor ≤ n := by
    rw [ratFloor_eq_floor]
    have := Int.floor_le_floor h
    simpa using this
  have hfle : (q.floor : ℚ) ≤ q := by
    rw [ratFloor_eq_floor]
    exact Int.floor_le q
  unfold rhe
  split_ifs with h1 h2 h3
  · exact hfl
  · have hlt : (q.floor : ℚ) < n := by linarith
    have : q.floor < n := by exact_mod_cast hlt
    omega
  · exact hfl
  · have hq : (q.floor : ℚ) + 1 / 2 ≤ q := by
      have hge : ¬(q - q.floor < 1 / 2) := h1
      push_neg at hge
      linarith
    have hlt : (q.floor : ℚ) < n := by linarith
    have : q.floor < n := by exact_mod_cast hlt
    omega

theorem le_round2 {n : ℤ} {q : ℚ} (h : (n : ℚ) ≤ q) : (n : ℚ) ≤ round2 q := by
  have h100 : ((100 * n : ℤ) : ℚ) ≤ 100 * q := by push_cast; linarith
  have := le_rhe h100
  have hc : ((100 * n : ℤ) : ℚ) ≤ (rhe (100 * q) : ℚ) := by exact_mod_cast this
  unfold round2
  push_cast at hc
  rw [le_div_iff₀ (by norm_num : (0:ℚ) < 100)]
  linarith

theorem round2_le {n : ℤ} {q : ℚ} (h : q ≤ (n : ℚ)) : round2 q ≤ (n : ℚ) := by
  have h100 : 100 * q ≤ ((100 * n : ℤ) : ℚ) := by push_cast; linarith
  have := rhe_le h100
  have hc : (rhe (100 * q) : ℚ) ≤ ((100 * n : ℤ) : ℚ) := by exact_mod_cast this
  unfold round2
  push_cast at hc
  rw [div_le_iff₀ (by norm_num : (0:ℚ) < 100)]
  linarith

theorem rhe_intCast (n : ℤ) : rhe (n : ℚ) = n := by
  have hf : ((n : ℚ)).floor = n := by
    rw [ratFloor_eq_floor]
    exact Int.floor_intCast n
  unfold rhe
  rw [hf]
  norm_num

theorem round2_intCast (n : ℤ) : round2 (n : ℚ) = (n : ℚ) := by
  unfold round2
  rw [show (100 : ℚ) * n = ((100 * n : ℤ) : ℚ) by push_cast; ring, rhe_intCast]
  push_cast
  field_simp

/-- The `last_active_at` value of a user, as the Python string field:
either a string that `datetime` parsing accepts (abstracted to the UTC
timestamp in seconds it denotes) or a string it rejects.  The Python
`None` / empty-string cases are covered by wrapping this type in
`Option` at the use sites, mirroring the truthiness guards in the
source. -/
inductive LastActive where
  | parseable (utcSeconds : Int)
  | malformed (s : String)
deriving DecidableEq

/-- Embeds `parse_iso_datetime` (trust_score.py lines 79-94) on a truthy
string: a parseable string yields its UTC instant, anything else raises
`ValueError`.  The `None` short-circuit of the source is handled at the
call sites, which all guard on truthiness before calling. -/
def parse_iso_datetime : LastActive → Except String Int
  | .parseable t => .ok t
  | .malformed s => .error ("Unrecognized ISO datetime: " ++ s)

/-- A user dictionary as consumed by the scoring engine
(trust_score.py).  Numeric fields are the values after the source's
`int(...)` coercions; flag fields are the values after `bool(...)`. -/
structure PyUser where
  user_id : Option String
  photos : Int
  bio : Bool
  interests : Bool
  selfie_verified : Bool
  id_verified : Bool
  login_streak_days : Int
  response_rate_pct : Int
  reports_received : Int
  last_active_at : Option LastActive
deriving DecidableEq

/-- Embeds `compute_profile_score` (trust_score.py lines 99-109). -/
def compute_profile_score (user : PyUser) : ℚ :=
  let photos_points : ℚ := ((min user.photos 6 : ℤ) : ℚ) / 6 * 20
  let bio_points : ℚ := if user.bio then 5 else 0
  let interests_points : ℚ := if user.interests then 5 else 0
  let total := photos_points + bio_points + interests_points
  round2 (max 0 (min 30 total))

/-- Embeds `compute_verification_score` (trust_score.py lines 111-115). -/
def compute_verification_score (user : PyUser) : ℚ :=
  let total : ℚ := (if user.selfie_verified then 20 else 0)
    + (if user.id_verified then 20 else 0)
  round2 (max 0 (min 40 total))

/-- The activity breakdown dictionary returned alongside the activity
score (trust_score.py lines 135-139). -/
structure ActivityBreakdown where
  streak_score : ℚ
  response_score : ℚ
  reports_penalty : ℚ
deriving DecidableEq

/-- Embeds `compute_activity_score` (trust_score.py lines 117-139). -/
def compute_activity_score (user : PyUser) : ℚ × ActivityBreakdown :=
  let streak_score : ℚ := ((min user.login_streak_days 30 : ℤ) : ℚ) / 30 * 20
  let resp_clamped : ℤ := max 0 (min user.response_rate_pct 100)
  let resp_score : ℚ := (resp_clamped : ℚ) / 100 * 10
  let reports_clamped : ℤ := min user.reports_received 5
  let reports_penalty : ℚ := -((reports_clamped : ℚ) / 5) * 8
  let total := streak_score + resp_score + reports_penalty
  let total := max (-8) total
  let total := min 30 total
  (round2 total,
    { streak_score := round2 streak_score,
      response_score := round2 resp_score,
      reports_penalty := round2 reports_penalty })

/-- Embeds `apply_inactivity_decay` (trust_score.py lines 144-163).
Returns `(new_score, decay_applied)`; raises exactly when the
last-active string is truthy but unparseable. -/
def apply_inactivity_decay (base_score : ℚ) (last_active : Option LastActive)
    (reference_dt : Int) : Except String (ℚ × ℚ) :=
  match last_active with
  | none => .ok (round2 (max 0 (min 100 base_score)), 0)
  | some la =>
    match parse_iso_datetime la with
    | .error e => .error e
    | .ok last_active_dt =>
      let days_inactive : ℤ := Int.fdiv (reference_dt - last_active_dt) 86400
      let full_weeks : ℤ := Int.fdiv days_inactive 7
      let decay : ℚ := (full_weeks : ℚ) * 5
      let new_score := max 0 (base_score - decay)
      let new_score := min 100 new_score
      .ok (round2 new_score, decay)

/-- The breakdown dictionary stored in a result
(trust_score.py lines 229-232). -/
structure Breakdown where
  activity_breakdown : ActivityBreakdown
  last_active_at : Option LastActive
deriving DecidableEq

/-- The `TrustScoreResult` dataclass (trust_score.py lines 64-74). -/
structure TrustScoreResult where
  user_id : String
  profile_score : ℚ
  verification_score : ℚ
  activity_score : ℚ
  raw_total : ℚ
  decay_applied : ℚ
  final_score : ℚ
  badges : List String
  breakdown : Breakdown
deriving DecidableEq

/-- Embeds `assign_badges` (trust_score.py lines 165-194).  Of the
result argument only `final_score` is read by the source.  The badge
thresholds are the `BADGE_THRESHOLDS` constants (lines 55-59).  Raises
exactly when the last-active string is truthy but unparseable. -/
def assign_badges (result : TrustScoreResult) (user : PyUser)
    (reference_dt : Int) : Except String (List String) :=
  let score := result.final_score
  let badges0 : List String := []
  let badges1 := if user.id_verified = true ∧ 85 ≤ score
    then badges0 ++ ["Verified User"] else badges0
  let badges2 := if 70 ≤ score
    then badges1 ++ ["Trusted Member"] else badges1
  match user.last_active_at with
  | none =>
    -- recent stays False, so the Active Dater condition cannot hold
    .ok badges2
  | some la =>
    match parse_iso_datetime la with
    | .error e => .error e
    | .ok last_active_dt =>
      let days_ago : ℤ := Int.fdiv (reference_dt - last_active_dt) 86400
      let recent := days_ago ≤ 7
      .ok (if 60 ≤ score ∧ recent then badges2 ++ ["Active Dater"] else badges2)

/-- Embeds `compute_trust_score` (trust_score.py lines 199-236), with
the reference time passed explicitly (the source defaults it to the
current UTC time when absent). -/
def compute_trust_score (user : PyUser) (reference_dt : Int) :
    Except String TrustScoreResult :=
  let uid := user.user_id.getD "unknown"
  let profile_score := compute_profile_score user
  let verification_score := compute_verification_score user
  let activity_pair := compute_activity_score user
  let activity_score := activity_pair.1
  let activity_breakdown := activity_pair.2
  let raw_total :=
    round2 (max 0 (min 100 (profile_score + verification_score + activity_score)))
  match apply_inactivity_decay raw_total user.last_active_at reference_dt with
  | .error e => .error e
  | .ok (final_score, decay_applied) =>
    let result : TrustScoreResult :=
      { user_id := uid
        profile_score := profile_score
        verification_score := verification_score
        activity_score := activity_score
        raw_total := raw_total
        decay_applied := decay_applied
        final_score := final_score
        badges := []
        breakdown :=
          { activity_breakdown := activity_breakdown
            last_active_at := user.last_active_at } }
    match assign_badges result user reference_dt with
    | .error e => .error e
    | .ok badges => .ok { result with badges := badges }

end TrustScore

namespace DbUpsert

/-- The dynamically-typed value found under the key `interests` of an
input dictionary handed to `map_input_to_row` (db_upsert.py): absent
(`d.get` returns `None`), a Python `bool`, a Python `int`, or a value
of any other type. -/
inductive InterestsField where
  | absent
  | boolVal (b : Bool)
  | intVal (n : Int)
  | otherVal
deriving DecidableEq

/-- Embeds the `interests` normalization block of `map_input_to_row`
(db_upsert.py lines 16-22): the value stored in the `interests_count`
column.  The source tests `isinstance(v, bool)` before
`isinstance(v, int)`, so Python booleans take the boolean branch. -/
def interests_count_of : InterestsField → Int
  | .boolVal b => if b then 5 else 0
  | .intVal n => max 0 (min 5 n)
  | .absent => 0
  | .otherVal => 0

end DbUpsert

namespace Worker

/-- A row of the `recompute_jobs` table as read and written by
worker_debug.py (columns named in its SQL statements). -/
structure Job where
  id : Int
  user_id : String
  enqueued_at : Int
  processing : Int
  processed : Int
  processor : Option String
  attempts : Int
  processed_at : Option Int
  last_error : Option String
deriving DecidableEq

/-- A job is pending: the `processed = 0 AND processing = 0` filter of
the claim query (worker_debug.py lines 28-31). -/
def isPending (j : Job) : Bool := j.processing == 0 && j.processed == 0

/-- The first SELECT of `claim_job` (worker_debug.py lines 27-32):
`ORDER BY enqueued_at ASC LIMIT 1` over pending rows.  The SQL
constrains the result only to be a pending row of minimal
`enqueued_at`; there is no identifier tie-break in the query, so among
equal timestamps the choice is unspecified.  This executable model
resolves ties by table order (first matching row). -/
def selectOldestPending : List Job → Option Job
  | [] => none
  | j :: rest =>
    let r := selectOldestPending rest
    if isPending j then
      match r with
      | none => some j
      | some b => if b.enqueued_at < j.enqueued_at then some b else some j
    else r

/-- What the claim query is allowed to return, by SQL semantics alone:
a pending row whose `enqueued_at` is minimal among pending rows.
This is the whole specification the SQL text imposes. -/
def claimSelectable (table : List Job) (j : Job) : Prop :=
  j ∈ table ∧ isPending j = true ∧
    ∀ j2 ∈ table, isPending j2 = true → j.enqueued_at ≤ j2.enqueued_at

/-- The UPDATE of `claim_job` (worker_debug.py lines 38-42): set
`processing = 1`, record the worker, increment `attempts`. -/
def claimUpdate (worker_name : String) (j : Job) : Job :=
  { j with processing := 1, processor := some worker_name,
           attempts := j.attempts + 1 }

/-- The dictionary returned by a successful `claim_job`
(worker_debug.py line 46). -/
structure ClaimedRow where
  id : Int
  user_id : String
  enqueued_at : Int
  attempts : Int
deriving DecidableEq

/-- Embeds `claim_job` (worker_debug.py lines 23-59).  The whole
select-then-update runs inside one `BEGIN IMMEDIATE` transaction, so
concurrent invocations serialize; the model is therefore a single
atomic step on the table.  After the commit the source re-reads the
updated row by id and returns its fields. -/
def claim_job (table : List Job) (worker_name : String) :
    Option ClaimedRow × List Job :=
  match selectOldestPending table with
  | none => (none, table)
  | some j =>
    let table2 := table.map fun r =>
      if r.id = j.id then claimUpdate worker_name r else r
    match table2.find? (fun r => r.id == j.id) with
    | none => (none, table2)  -- unreachable: the updated row is still present
    | some r =>
      (some { id := r.id, user_id := r.user_id,
              enqueued_at := r.enqueued_at, attempts := r.attempts }, table2)

/-- Embeds `mark_job_done` (worker_debug.py lines 113-120): an
unconditional UPDATE by id setting `processed = 1`, the processed
timestamp, and `processing = 0`. -/
def mark_job_done (table : List Job) (job_id : Int) (now : Int) : List Job :=
  table.map fun r =>
    if r.id = job_id then
      { r with processed := 1, processed_at := some now, processing := 0 }
    else r

/-- Embeds `mark_job_failed` (worker_debug.py lines 122-129): an
unconditional UPDATE by id setting `processed = 2`, the error text, the
processed timestamp, and `processing = 0`. -/
def mark_job_failed (table : List Job) (job_id : Int) (err : String)
    (now : Int) : List Job :=
  table.map fun r =>
    if r.id = job_id then
      { r with processed := 2, last_error := some err,
               processed_at := some now, processing := 0 }
    else r

/-- The queue operations the worker performs on `recompute_jobs`. -/
inductive QOp where
  | claim (worker_name : String)
  | done (job_id : Int) (now : Int)
  | fail (job_id : Int) (err : String) (now : Int)

/-- Effect of one queue operation on the table. -/
def applyOp (table : List Job) : QOp → List Job
  | .claim w => (claim_job table w).2
  | .done jid now => mark_job_done table jid now
  | .fail jid err now => mark_job_failed table jid err now

/-- Effect of a sequence of queue operations. -/
def applyOps (table : List Job) (ops : List QOp) : List Job :=
  ops.foldl applyOp table

/-- N workers each running `claim_job` once, in serialization order
(the order in which their exclusive transactions commit).  Returns the
per-worker results and the final table. -/
def runClaims : List String → List Job → List (Option ClaimedRow) × List Job
  | [], table => ([], table)
  | w :: rest, table =>
    let step := claim_job table w
    let tail := runClaims rest step.2
    (step.1 :: tail.1, tail.2)

end Worker

namespace Persist

/-- The persisted score/audit state touched by
`upsert_trust_score_and_audit` (worker_debug.py lines 85-111):
`trust_scores` has one row per user, `trust_score_audit` is
append-only.  Timestamps and the serialized details text are elided. -/
structure ScoreStore where
  trust_scores : List (String × ℚ)
  trust_score_audit : List (String × ℚ)
deriving DecidableEq

/-- The `INSERT ... ON CONFLICT(user_id) DO UPDATE` on `trust_scores`
(worker_debug.py lines 88-97): replace semantics, one row per user. -/
def upsertScoreStmt (st : ScoreStore) (uid : String) (score : ℚ) : ScoreStore :=
  if st.trust_scores.any (fun r => r.1 == uid) then
    { st with trust_scores :=
        st.trust_scores.map fun r => if r.1 == uid then (uid, score) else r }
  else
    { st with trust_scores := st.trust_scores ++ [(uid, score)] }

/-- The `INSERT INTO trust_score_audit` (worker_debug.py lines 104-110). -/
def insertAuditStmt (st : ScoreStore) (uid : String) (score : ℚ) : ScoreStore :=
  { st with trust_score_audit := st.trust_score_audit ++ [(uid, score)] }

/-- Embeds `upsert_trust_score_and_audit` (worker_debug.py lines
85-111) as its list of separately committed units.  The worker opens
its connection with autocommit (`isolation_level` of `None`,
worker_debug.py line 135) and this function never issues a BEGIN, so
each of its two statements commits on its own; the trailing
`conn.commit()` is a no-op.  One list entry is one durable unit. -/
def upsert_trust_score_and_audit (uid : String) (score : ℚ) :
    List (ScoreStore → ScoreStore) :=
  [fun st => upsertScoreStmt st uid score,
   fun st => insertAuditStmt st uid score]

/-- State visible after a crash that interrupts a statement sequence
right after its first `k` committed units. -/
def crashAfter (stmts : List (ScoreStore → ScoreStore)) (k : Nat)
    (st : ScoreStore) : ScoreStore :=
  (stmts.take k).foldl (fun s f => f s) st

end Persist

namespace TrustScore

/-- The Scenario A user of the spec: photos 6, all flags true, streak
30, response 100, no reports, last active exactly at the reference
instant. -/
def userA : PyUser :=
  { user_id := some "user_a", photos := 6, bio := true, interests := true,
    selfie_verified := true, id_verified := true, login_streak_days := 30,
    response_rate_pct := 100, reports_received := 0,
    last_active_at := some (.parseable 0) }

/-- A user whose `last_active_at` string is not a parseable ISO
datetime. -/
def userBad : PyUser :=
  { userA with last_active_at := some (.malformed "not-a-date") }

/-- The result the engine computes for `userA` at reference time 0. -/
def resultA : TrustScoreResult :=
  { user_id := "user_a", profile_score := 30, verification_score := 40,
    activity_score := 30, raw_total := 100, decay_applied := 0,
    final_score := 100,
    badges := ["Verified User", "Trusted Member", "Active Dater"],
    breakdown :=
      { activity_breakdown :=
          { streak_score := 20, response_score := 10, reports_penalty := 0 }
        last_active_at := some (.parseable 0) } }

/-- The intermediate result (badges still empty) handed by
`compute_trust_score` to `assign_badges` for `userA`. -/
def result0A : TrustScoreResult := { resultA with badges := [] }

theorem compute_profile_score_userA : compute_profile_score userA = 30 := by
  unfold compute_profile_score
  simp only [userA]
  norm_num [min_def, max_def]
  simpa using round2_intCast 30

theorem compute_verification_score_userA :
    compute_verification_score userA = 40 := by
  unfold compute_verification_score
  simp only [userA]
  norm_num [min_def, max_def]
  simpa using round2_intCast 40

theorem compute_activity_score_userA :
    compute_activity_score userA =
      (30, { streak_score := 20, response_score := 10, reports_penalty := 0 }) := by
  unfold compute_activity_score
  simp only [userA]
  norm_num [min_def, max_def]
  refine ⟨by simpa using round2_intCast 30, ?_, ?_, ?_⟩
  · simpa using round2_intCast 20
  · simpa using round2_intCast 10
  · simpa using round2_intCast 0

theorem apply_inactivity_decay_userA :
    apply_inactivity_decay 100 (some (.parseable 0)) 0 = .ok (100, 0) := by
  simp only [apply_inactivity_decay, parse_iso_datetime]
  norm_num [min_def, max_def]
  simpa using round2_intCast 100

theorem assign_badges_userA_100 (res : TrustScoreResult)
    (hf : res.final_score = 100) :
    assign_badges res userA 0 =
      .ok ["Verified User", "Trusted Member", "Active Dater"] := by
  simp only [assign_badges, parse_iso_datetime, hf, userA]
  norm_num

theorem compute_trust_score_userA :
    compute_trust_score userA 0 = .ok resultA := by
  simp only [compute_trust_score, compute_profile_score_userA,
    compute_verification_score_userA, compute_activity_score_userA]
  rw [show (30 : ℚ) + 40 + 30 = 100 by norm_num]
  rw [show max 0 (min 100 (100 : ℚ)) = 100 by norm_num [min_def, max_def]]
  rw [show round2 (100 : ℚ) = 100 by simpa using round2_intCast 100]
  rw [show userA.last_active_at = some (.parseable 0) from rfl]
  rw [apply_inactivity_decay_userA]
  simp only [show userA.user_id = some "user_a" from rfl, Option.getD]
  rw [assign_badges_userA_100 _ rfl]
  simp [resultA]

end TrustScore

namespace TrustScore

/-- C8: for the Scenario A user (photos 6, bio, interests, selfie and
id verified, streak 30, response 100, no reports, last active at the
reference instant) `compute_trust_score` returns profile 30,
verification 40, activity 30, raw total 100, decay 0, final 100 and
the badges Verified User, Trusted Member, Active Dater. -/
theorem compute_trust_score_scenario_a :
    (compute_trust_score userA 0).toOption.map (fun r =>
      (r.profile_score, r.verification_score, r.activity_score, r.raw_total,
        r.decay_applied, r.final_score, r.badges))
      = some (30, 40, 30, 100, 0, 100,
          ["Verified User", "Trusted Member", "Active Dater"]) := by
  rw [compute_trust_score_userA]
  simp [resultA, Except.toOption]

/-- C2: refuted as stated — the code applies a negative decay when the
last-active instant lies in the future.  With base score 50, reference
time 0 and last-active one day later (86400 s), the source computes
days inactive -1, full weeks -1, decay -5, and returns score 55: the
decay is negative and the returned score exceeds the base score,
contradicting the no-negative-decay clause. -/
theorem apply_inactivity_decay_negative_on_future :
    apply_inactivity_decay 50 (some (.parseable 86400)) 0 = .ok (55, -5) ∧
      (50 : ℚ) < 55 ∧ (-5 : ℚ) < 0 := by
  refine ⟨?_, by norm_num, by norm_num⟩
  simp only [apply_inactivity_decay, parse_iso_datetime]
  rw [show Int.fdiv (0 - 86400) 86400 = -1 from by decide]
  rw [show Int.fdiv (-1) 7 = -1 from by decide]
  norm_num [min_def, max_def]
  simpa using round2_intCast 55

/-- C3 counterexample: `compute_trust_score` raises (returns an error)
on a user whose `last_active_at` string is unparseable, so the engine
is not total on malformed user data. -/
theorem compute_trust_score_raises_on_malformed :
    compute_trust_score userBad 0
      = .error "Unrecognized ISO datetime: not-a-date" := rfl

/-- C3 (amended): `compute_trust_score` returns a result without
raising for every user whose `last_active_at` is absent (or falsy) or
parseable — numeric fields are clamped, never raised on — but an
unparseable `last_active_at` string raises a `ValueError` out of the
engine. -/
theorem compute_trust_score_total_on_parseable (u : PyUser) (ref : Int)
    (h : u.last_active_at = none ∨
      ∃ t, u.last_active_at = some (LastActive.parseable t)) :
    ∃ r, compute_trust_score u ref = .ok r := by
  rcases h with hla | ⟨t, hla⟩
  · simp only [compute_trust_score, hla, apply_inactivity_decay, assign_badges]
    exact ⟨_, rfl⟩
  · simp only [compute_trust_score, hla, apply_inactivity_decay,
      parse_iso_datetime, assign_badges]
    exact ⟨_, rfl⟩

/-- C3 witness: the amended theorem applied to the Scenario A user,
whose last-active string is parseable. -/
theorem compute_trust_score_total_on_parseable_witness :
    ∃ r, compute_trust_score userA 0 = .ok r :=
  compute_trust_score_total_on_parseable userA 0 (Or.inr ⟨0, rfl⟩)

end TrustScore

namespace DbUpsert

/-- C9: `map_input_to_row` normalizes the `interests` field to the
`interests_count` column: boolean true maps to 5, false to 0, an
integer n to clamp(n, 0, 5), and an absent field or a value of any
other type to 0; the column is always in [0, 5]. -/
theorem map_input_interests_normalization :
    interests_count_of (.boolVal true) = 5 ∧
    interests_count_of (.boolVal false) = 0 ∧
    (∀ n : Int, interests_count_of (.intVal n) = max 0 (min 5 n)) ∧
    interests_count_of .absent = 0 ∧
    interests_count_of .otherVal = 0 ∧
    (∀ v : InterestsField,
      0 ≤ interests_count_of v ∧ interests_count_of v ≤ 5) := by
  refine ⟨rfl, rfl, fun n => rfl, rfl, rfl, fun v => ?_⟩
  cases v with
  | boolVal b => cases b <;> simp [interests_count_of]
  | intVal n => simp [interests_count_of]
  | absent => simp [interests_count_of]
  | otherVal => simp [interests_count_of]

end DbUpsert

namespace Persist

/-- C5: refuted as stated — the worker persists the score upsert and
the audit append as two separately committed units (the connection is
in autocommit mode and `upsert_trust_score_and_audit` opens no
transaction), so a crash after the first unit leaves a committed score
update with no matching audit entry. -/
theorem upsert_and_audit_two_commit_units :
    (upsert_trust_score_and_audit "u1" 42).length = 2 ∧
    crashAfter (upsert_trust_score_and_audit "u1" 42) 1
        { trust_scores := [], trust_score_audit := [] }
      = { trust_scores := [("u1", 42)], trust_score_audit := [] } :=
  ⟨rfl, rfl⟩

end Persist

namespace TrustScore

theorem round2_max_min_bounds (lo hi : ℤ) (q : ℚ) (h : (lo : ℚ) ≤ (hi : ℚ)) :
    (lo : ℚ) ≤ round2 (max lo (min hi q)) ∧
      round2 (max lo (min hi q)) ≤ (hi : ℚ) :=
  ⟨le_round2 (le_max_left _ _), round2_le (max_le h (min_le_left _ _))⟩

theorem round2_min_max_bounds (lo hi : ℤ) (q : ℚ) (h : (lo : ℚ) ≤ (hi : ℚ)) :
    (lo : ℚ) ≤ round2 (min hi (max lo q)) ∧
      round2 (min hi (max lo q)) ≤ (hi : ℚ) :=
  ⟨le_round2 (le_min h (le_max_left _ _)), round2_le (min_le_left _ _)⟩

theorem compute_profile_score_bounds (u : PyUser) :
    0 ≤ compute_profile_score u ∧ compute_profile_score u ≤ 30 := by
  simp only [compute_profile_score]
  simpa using round2_max_min_bounds 0 30 _ (by norm_num)

theorem compute_verification_score_bounds (u : PyUser) :
    0 ≤ compute_verification_score u ∧ compute_verification_score u ≤ 40 := by
  simp only [compute_verification_score]
  simpa using round2_max_min_bounds 0 40 _ (by norm_num)

theorem compute_activity_score_bounds (u : PyUser) :
    -8 ≤ (compute_activity_score u).1 ∧ (compute_activity_score u).1 ≤ 30 := by
  simp only [compute_activity_score]
  simpa using round2_min_max_bounds (-8) 30 _ (by norm_num)

theorem apply_inactivity_decay_ok_bounds {b : ℚ} {la : Option LastActive}
    {ref : Int} {f d : ℚ}
    (h : apply_inactivity_decay b la ref = .ok (f, d)) : 0 ≤ f ∧ f ≤ 100 := by
  cases la with
  | none =>
    simp only [apply_inactivity_decay, Except.ok.injEq, Prod.mk.injEq] at h
    obtain ⟨hf, _⟩ := h
    subst hf
    simpa using round2_max_min_bounds 0 100 _ (by norm_num)
  | some la2 =>
    cases la2 with
    | malformed s => simp [apply_inactivity_decay, parse_iso_datetime] at h
    | parseable t =>
      simp only [apply_inactivity_decay, parse_iso_datetime, Except.ok.injEq,
        Prod.mk.injEq] at h
      obtain ⟨hf, _⟩ := h
      subst hf
      simpa using round2_min_max_bounds 0 100 _ (by norm_num)

/-- C4: whenever the engine returns a result, every component score is
within its documented bound: profile in [0,30], verification in
[0,40], activity in [-8,30], final in [0,100]. -/
theorem compute_trust_score_component_bounds (u : PyUser) (ref : Int)
    (r : TrustScoreResult) (h : compute_trust_score u ref = .ok r) :
    (0 ≤ r.profile_score ∧ r.profile_score ≤ 30) ∧
    (0 ≤ r.verification_score ∧ r.verification_score ≤ 40) ∧
    (-8 ≤ r.activity_score ∧ r.activity_score ≤ 30) ∧
    (0 ≤ r.final_score ∧ r.final_score ≤ 100) := by
  simp only [compute_trust_score] at h
  split at h
  · exact absurd h (by simp)
  · rename_i final_decay f d heq
    split at h
    · exact absurd h (by simp)
    · rename_i badges heq2
      simp only [Except.ok.injEq] at h
      subst h
      refine ⟨compute_profile_score_bounds u, compute_verification_score_bounds u,
        compute_activity_score_bounds u, ?_⟩
      simpa using apply_inactivity_decay_ok_bounds heq

/-- C4 witness: the bounds instantiated at the Scenario A user and its
computed result. -/
theorem compute_trust_score_component_bounds_witness :
    (0 ≤ resultA.profile_score ∧ resultA.profile_score ≤ 30) ∧
    (0 ≤ resultA.verification_score ∧ resultA.verification_score ≤ 40) ∧
    (-8 ≤ resultA.activity_score ∧ resultA.activity_score ≤ 30) ∧
    (0 ≤ resultA.final_score ∧ resultA.final_score ≤ 100) :=
  compute_trust_score_component_bounds userA 0 resultA compute_trust_score_userA

end TrustScore

namespace Worker

/-- A concrete pending job used to instantiate the queue theorems. -/
def j0 : Job :=
  { id := 1, user_id := "u1", enqueued_at := 0, processing := 0, processed := 0,
    processor := none, attempts := 0, processed_at := none, last_error := none }

theorem selectOldestPending_eq_none (s : List Job)
    (h : ∀ j ∈ s, isPending j = false) : selectOldestPending s = none := by
  induction s with
  | nil => rfl
  | cons a rest ih =>
    have ha : isPending a = false := h a (by simp)
    simp only [selectOldestPending, ha]
    simp only [Bool.false_eq_true, if_false]
    exact ih fun j hj => h j (by simp [hj])

theorem claim_job_no_pending (s : List Job) (w : String)
    (h : ∀ j ∈ s, isPending j = false) : claim_job s w = (none, s) := by
  simp only [claim_job, selectOldestPending_eq_none s h]

theorem runClaims_no_pending (ws : List String) (s : List Job)
    (h : ∀ j ∈ s, isPending j = false) :
    runClaims ws s = (ws.map (fun _ => none), s) := by
  induction ws with
  | nil => rfl
  | cons w rest ih =>
    simp only [runClaims, claim_job_no_pending s w h, ih, List.map]

/-- C1: with a single pending job in the queue, any number of claim
transactions — serialized by the exclusive `BEGIN IMMEDIATE`
transaction, so every concurrent schedule is some sequential order —
give the job to exactly the first claimant, whose returned row carries
the incremented attempt counter; every later claimant gets none and
the job row rests claimed by the winner (`processing = 1`, worker
recorded, attempts incremented) and is never modified again. -/
theorem claim_job_exclusive_single_pending (w : String) (ws : List String)
    (j : Job) (h0 : j.processing = 0) (h1 : j.processed = 0) :
    runClaims (w :: ws) [j] =
      (some { id := j.id, user_id := j.user_id, enqueued_at := j.enqueued_at,
              attempts := j.attempts + 1 }
          :: ws.map (fun _ => none),
        [claimUpdate w j]) := by
  have hp : isPending j = true := by simp [isPending, h0, h1]
  have hsel : selectOldestPending [j] = some j := by
    simp [selectOldestPending, hp]
  have hclaim : claim_job [j] w =
      (some { id := j.id, user_id := j.user_id, enqueued_at := j.enqueued_at,
              attempts := j.attempts + 1 },
        [claimUpdate w j]) := by
    simp only [claim_job, hsel]
    simp [claimUpdate, List.find?]
  have hnp : ∀ x ∈ [claimUpdate w j], isPending x = false := by
    intro x hx
    simp only [List.mem_singleton] at hx
    subst hx
    simp [isPending, claimUpdate]
  simp only [runClaims, hclaim, runClaims_no_pending ws _ hnp]

/-- C1 witness: three workers racing for the single pending job `j0`;
the first in serialization order wins, the others observe no job. -/
theorem claim_job_exclusive_single_pending_witness :
    runClaims ["w1", "w2", "w3"] [j0] =
      (some { id := 1, user_id := "u1", enqueued_at := 0, attempts := 1 }
          :: [none, none],
        [claimUpdate "w1" j0]) :=
  claim_job_exclusive_single_pending "w1" ["w2", "w3"] j0 rfl rfl

end Worker

namespace Worker

/-- The per-step property the amended monotonicity claim asserts of
every job row across one queue operation: a nonzero `processed` stays
nonzero, and `processing` drops to zero only together with a terminal
`processed` value. -/
def stepOk (j j2 : Job) : Prop :=
  (j.processed ≠ 0 → j2.processed ≠ 0) ∧
  (j.processing ≠ 0 → j2.processing = 0 → j2.processed = 1 ∨ j2.processed = 2)

theorem forall2_self {α : Type} (P : α → α → Prop) (h : ∀ a, P a a)
    (l : List α) : List.Forall₂ P l l :=
  List.forall₂_same.mpr fun a _ => h a

theorem forall2_map_self {α : Type} (P : α → α → Prop) (f : α → α)
    (h : ∀ a, P a (f a)) : ∀ l : List α, List.Forall₂ P l (l.map f)
  | [] => List.Forall₂.nil
  | a :: rest => List.Forall₂.cons (h a) (forall2_map_self P f h rest)

theorem forall2_trans_of {α : Type} (R : α → α → Prop)
    (htr : ∀ x y z, R x y → R y z → R x z) :
    ∀ {a b c : List α}, List.Forall₂ R a b → List.Forall₂ R b c →
      List.Forall₂ R a c := by
  intro a b c h1
  induction h1 generalizing c with
  | nil => intro h2; cases h2; exact List.Forall₂.nil
  | cons hxy _ ih =>
    intro h2
    cases h2 with
    | cons hyz h2t => exact List.Forall₂.cons (htr _ _ _ hxy hyz) (ih h2t)

theorem stepOk_refl (j : Job) : stepOk j j :=
  ⟨id, fun hn hz => absurd hz hn⟩

theorem stepOk_claimUpdate (w : String) (a : Job) :
    stepOk a (claimUpdate w a) := by
  constructor
  · intro h
    simpa [claimUpdate] using h
  · intro _ hz
    simp [claimUpdate] at hz

theorem applyOp_stepOk (s : List Job) (op : QOp) :
    List.Forall₂ stepOk s (applyOp s op) := by
  cases op with
  | claim w =>
    show List.Forall₂ stepOk s (claim_job s w).2
    unfold claim_job
    cases hsel : selectOldestPending s with
    | none => exact forall2_self _ stepOk_refl s
    | some c =>
      simp only []
      cases hf : (s.map fun r => if r.id = c.id then claimUpdate w r else r).find?
          (fun r => r.id == c.id) with
      | none =>
        simp only [hf]
        refine forall2_map_self _ _ (fun a => ?_) s
        by_cases hid : a.id = c.id
        · simpa [hid] using stepOk_claimUpdate w a
        · simpa [hid] using stepOk_refl a
      | some r =>
        simp only [hf]
        refine forall2_map_self _ _ (fun a => ?_) s
        by_cases hid : a.id = c.id
        · simpa [hid] using stepOk_claimUpdate w a
        · simpa [hid] using stepOk_refl a
  | done jid now =>
    refine forall2_map_self _ _ (fun a => ?_) s
    by_cases hid : a.id = jid
    · refine ⟨fun _ => ?_, fun _ _ => ?_⟩ <;> simp [hid]
    · simpa [hid] using stepOk_refl a
  | fail jid err now =>
    refine forall2_map_self _ _ (fun a => ?_) s
    by_cases hid : a.id = jid
    · refine ⟨fun _ => ?_, fun _ _ => ?_⟩ <;> simp [hid]
    · simpa [hid] using stepOk_refl a

theorem applyOps_processed_stays_nonzero (s : List Job) (ops : List QOp) :
    List.Forall₂ (fun j j2 => j.processed ≠ 0 → j2.processed ≠ 0) s
      (applyOps s ops) := by
  induction ops generalizing s with
  | nil => exact forall2_self _ (fun a => id) s
  | cons op rest ih =>
    have h1 : List.Forall₂ (fun j j2 => j.processed ≠ 0 → j2.processed ≠ 0) s
        (applyOp s op) :=
      (applyOp_stepOk s op).imp fun a b h => h.1
    exact forall2_trans_of _ (fun x y z hxy hyz hx => hyz (hxy hx)) h1
      (ih (applyOp s op))

/-- C6 counterexample: the claim fails as stated — `mark_job_failed`
is an unguarded UPDATE, so invoking it on a job already marked done
(processed = 1) flips `processed` to 2: a terminal `processed` value
is not immutable under arbitrary sequences of queue operations. -/
theorem processed_terminal_flips :
    ((applyOps [j0] [.claim "w1", .done 1 5]).map Job.processed = [1]) ∧
    ((applyOps [j0] [.claim "w1", .done 1 5, .fail 1 "boom" 6]).map
        Job.processed = [2]) :=
  ⟨rfl, rfl⟩

/-- C6 (amended): every queue operation takes each job row to a row
satisfying `stepOk` — `processed` never returns to 0 once nonzero (in
particular over any sequence of operations), and `processing` is reset
to 0 only by a step that also leaves a terminal `processed` value; a
mark operation applied to an already-terminal job can, however, still
flip `processed` between 1 and 2. -/
theorem queue_ops_weak_monotonicity :
    (∀ (s : List Job) (op : QOp), List.Forall₂ stepOk s (applyOp s op)) ∧
    (∀ (s : List Job) (ops : List QOp),
      List.Forall₂ (fun j j2 => j.processed ≠ 0 → j2.processed ≠ 0) s
        (applyOps s ops)) :=
  ⟨applyOp_stepOk, applyOps_processed_stays_nonzero⟩

/-- C6 witness: the amended invariant instantiated on the single-job
queue and a mark-done step. -/
theorem queue_ops_weak_monotonicity_witness :
    List.Forall₂ stepOk [j0] (applyOp [j0] (QOp.done 1 5)) :=
  queue_ops_weak_monotonicity.1 [j0] (QOp.done 1 5)

end Worker

namespace Worker

theorem selectOldestPending_none_no_pending (s : List Job)
    (h : selectOldestPending s = none) : ∀ j ∈ s, isPending j = false := by
  induction s with
  | nil => simp
  | cons a rest ih =>
    simp only [selectOldestPending] at h
    by_cases hp : isPending a
    · rw [if_pos hp] at h
      cases hr : selectOldestPending rest with
      | none => rw [hr] at h; simp at h
      | some b =>
        rw [hr] at h
        by_cases hlt : b.enqueued_at < a.enqueued_at <;> simp [hlt] at h
    · rw [if_neg hp] at h
      intro j hj
      rcases List.mem_cons.mp hj with rfl | hj2
      · simpa using hp
      · exact ih h j hj2

/-- C7 (amended): the row claimed by the claim query is a pending row
whose enqueue time is minimal among pending rows — which is all the
SQL (`ORDER BY enqueued_at ASC LIMIT 1`) guarantees; no identifier
tie-break is imposed. -/
theorem selectOldestPending_selectable (s : List Job) (j : Job)
    (h : selectOldestPending s = some j) : claimSelectable s j := by
  induction s generalizing j with
  | nil => simp [selectOldestPending] at h
  | cons a rest ih =>
    simp only [selectOldestPending] at h
    by_cases hp : isPending a
    · rw [if_pos hp] at h
      cases hr : selectOldestPending rest with
      | none =>
        rw [hr] at h
        simp only [Option.some.injEq] at h
        subst h
        refine ⟨by simp, hp, ?_⟩
        intro j2 hj2 hpj2
        rcases List.mem_cons.mp hj2 with rfl | hj2'
        · exact le_refl _
        · exact absurd hpj2
            (by simp [selectOldestPending_none_no_pending rest hr j2 hj2'])
      | some b =>
        rw [hr] at h
        obtain ⟨hm, hpend, hmin⟩ := ih b hr
        by_cases hlt : b.enqueued_at < a.enqueued_at
        · simp only [if_pos hlt, Option.some.injEq] at h
          subst h
          refine ⟨List.mem_cons_of_mem _ hm, hpend, ?_⟩
          intro j2 hj2 hp2
          rcases List.mem_cons.mp hj2 with rfl | hj2'
          · exact le_of_lt hlt
          · exact hmin j2 hj2' hp2
        · simp only [if_neg hlt, Option.some.injEq] at h
          subst h
          push_neg at hlt
          refine ⟨by simp, hp, ?_⟩
          intro j2 hj2 hp2
          rcases List.mem_cons.mp hj2 with rfl | hj2'
          · exact le_refl _
          · exact le_trans hlt (hmin j2 hj2' hp2)
    · rw [if_neg hp] at h
      obtain ⟨hm, hpend, hmin⟩ := ih j h
      refine ⟨List.mem_cons_of_mem _ hm, hpend, ?_⟩
      intro j2 hj2 hp2
      rcases List.mem_cons.mp hj2 with rfl | hj2'
      · exact absurd hp2 hp
      · exact hmin j2 hj2' hp2

/-- C7 witness: the amended theorem applied to a one-row table. -/
theorem selectOldestPending_selectable_witness :
    claimSelectable [j0] j0 :=
  selectOldestPending_selectable [j0] j0 rfl

/-- A pending job with the minimal identifier among the tied rows. -/
def jobMinId : Job :=
  { id := 1, user_id := "u1", enqueued_at := 100, processing := 0,
    processed := 0, processor := none, attempts := 0, processed_at := none,
    last_error := none }

/-- A pending job tied with `jobMinId` on enqueue time but with a
larger identifier. -/
def jobOther : Job := { jobMinId with id := 2, user_id := "u2" }

/-- A table presentation of the two tied pending rows. -/
def tiedTable : List Job := [jobOther, jobMinId]

/-- C7 counterexample: with two pending jobs sharing the same enqueue
timestamp, the claim query is free to return — and an execution of the
embedded `claim_job` does return — the job with id 2 even though the
pending job with id 1 is tied on enqueue time: the code orders only by
`enqueued_at`, so the smallest-identifier tie-break the claim asserts
is not guaranteed. -/
theorem claim_query_id_tiebreak_counterexample :
    claimSelectable tiedTable jobOther ∧
    (claim_job tiedTable "w").1 =
      some { id := 2, user_id := "u2", enqueued_at := 100, attempts := 1 } ∧
    jobMinId ∈ tiedTable ∧ isPending jobMinId = true ∧
    jobMinId.enqueued_at = jobOther.enqueued_at ∧
    jobMinId.id < jobOther.id := by
  refine ⟨⟨by simp [tiedTable], rfl, ?_⟩, rfl, by simp [tiedTable], rfl, rfl,
    by decide⟩
  intro j2 hj2 _
  simp only [tiedTable, List.mem_cons, List.mem_singleton] at hj2
  rcases hj2 with rfl | rfl | h
  · exact le_refl _
  · exact le_refl _
  · simp at h

end Worker

namespace TrustScore

/-- C10: any badge list `assign_badges` returns is an in-order
selection from the fixed sequence Verified User, Trusted Member,
Active Dater — so it has no duplicates and no other badge name ever
appears. -/
theorem assign_badges_sublist_nodup (res : TrustScoreResult) (u : PyUser)
    (ref : Int) (l : List String)
    (h : assign_badges res u ref = .ok l) :
    l.Sublist ["Verified User", "Trusted Member", "Active Dater"] ∧
      l.Nodup := by
  simp only [assign_badges] at h
  cases hla : u.last_active_at with
  | none =>
    rw [hla] at h
    simp only [Except.ok.injEq] at h
    subst h
    by_cases h1 : u.id_verified = true ∧ 85 ≤ res.final_score <;>
      by_cases h2 : (70 : ℚ) ≤ res.final_score <;>
      simp [h1, h2]
  | some la =>
    cases la with
    | malformed s =>
      rw [hla] at h
      simp [parse_iso_datetime] at h
    | parseable t =>
      rw [hla] at h
      simp only [parse_iso_datetime, Except.ok.injEq] at h
      subst h
      by_cases h1 : u.id_verified = true ∧ 85 ≤ res.final_score <;>
        by_cases h2 : (70 : ℚ) ≤ res.final_score <;>
        by_cases h3 : (60 : ℚ) ≤ res.final_score ∧
          Int.fdiv (ref - t) 86400 ≤ 7 <;>
        simp [h1, h2, h3]

/-- C10 witness: the badge invariant instantiated at the Scenario A
result, whose list is the full fixed sequence. -/
theorem assign_badges_sublist_nodup_witness :
    (["Verified User", "Trusted Member", "Active Dater"] : List String).Sublist
        ["Verified User", "Trusted Member", "Active Dater"] ∧
      (["Verified User", "Trusted Member", "Active Dater"] :
        List String).Nodup :=
  assign_badges_sublist_nodup result0A userA 0 _
    (assign_badges_userA_100 result0A rfl)

end TrustScore
